import Mathlib

/-
Shallow embedding of the voice2synth granular synthesis engine.

Sources embedded here:
  - worklets/granular-processor.js : RingRNG, Voice, Grain, GranularProcessor
    (handleMessage, scheduleGrainForVoice, applyEQ, process), readInterp,
    readParam, clamp, clampInt, onePoleAlpha, hann.
  - js/audio/samplerInstrument.js : applyEdgeFades, createGranularInstrument
    (the worklet-branch noteOn/noteOff control interface, makeIdGen, clamp).

Modelling conventions:
  - JS 64-bit floats are idealised as rationals wherever the code only uses
    field operations, floor, min, max and comparisons; the transcendental
    parts (the Hann window and the one-pole EQ coefficients, which use cos,
    exp and pow with non-integer exponents) are idealised over the reals.
  - The xorshift32 generator is modelled on Nat with explicit reduction
    modulo 2^32; its published value (s & 0x7fffffff) / 0x80000000 becomes
    (s % 2^31) / 2^31 as a rational.
  - A JS out-of-range array read yields undefined (hence NaN arithmetic);
    the model totalises such reads to 0.  The safety theorems show the
    accesses made by the render path stay in range, so the default is
    never observable there.
  - The JS while-loop that catches up grain scheduling is embedded with an
    explicit fuel argument; the fuel actually passed is proved sufficient
    for the loop to reach its exit condition whenever the segment is
    non-empty (the only situation in which the code runs the loop).
-/

namespace Voice2Synth

/-! ### RingRNG (granular-processor.js, xorshift32) -/

/-- One xorshift32 state update, as performed by RingRNG.next on the stored
32-bit state: x ^= x << 13; x ^= x >>> 17; x ^= x << 5, all on the 32-bit
pattern, stored back with >>> 0. -/
def rngStep (s : ℕ) : ℕ :=
  let a := s ^^^ ((s <<< 13) % 2 ^ 32)
  let b := a ^^^ (a >>> 17)
  (b ^^^ ((b <<< 5) % 2 ^ 32)) % 2 ^ 32

/-- The value RingRNG.next returns for a given (already updated) state:
(s & 0x7fffffff) / 0x80000000. -/
def rngVal (s : ℕ) : ℚ :=
  ((s % 2 ^ 31 : ℕ) : ℚ) / 2 ^ 31

/-! ### Data model (granular-processor.js, Grain and Voice classes) -/

/-- The Grain class: float read positions for both channels, window length in
frames, current frame index inside the window, playback rate and amplitude. -/
structure Grain where
  posL : ℚ
  posR : ℚ
  lengthFrames : ℕ
  idx : ℕ
  rate : ℚ
  gain : ℚ
  deriving DecidableEq, Repr

/-- The Voice class: id, rate, gain, the on flag (isOn here; on is an infix operator in Mathlib) cleared by noteOff, the
running scheduling clock in seconds, the time the next grain is due, and the
list of active grains. -/
structure Voice where
  id : ℕ
  rate : ℚ
  gain : ℚ
  isOn : Bool
  time : ℚ
  nextGrainAt : ℚ
  grains : List Grain
  deriving DecidableEq, Repr

/-- The Voice constructor: new Voice(id, rate, gain) starts on, with both
clocks at zero and no grains. -/
def Voice.mk0 (id : ℕ) (rate gain : ℚ) : Voice :=
  ⟨id, rate, gain, true, 0, 0, []⟩

/-! ### Small helpers shared by both source files -/

/-- The clamp helper: Math.max(a, Math.min(b, v)). -/
def clampQ (v a b : ℚ) : ℚ := max a (min b v)

/-- The clampInt helper of the processor; its inputs are integers here, so
the |0 truncations are identities. -/
def clampInt (v a b : ℤ) : ℤ := max a (min b v)

/-- Total array read: JS buf[i] for an in-range index, 0 (in place of the NaN
JS arithmetic would produce from undefined) otherwise. -/
def getQ (buf : List ℚ) (i : ℤ) : ℚ :=
  if 0 ≤ i then buf.getD i.toNat 0 else 0

/-- The readInterp function: linear interpolation between the floor index and
its successor, the successor wrapping to 0 at the end of the buffer. -/
def readInterp (buf : List ℚ) (pos : ℚ) : ℚ :=
  let i : ℤ := ⌊pos⌋
  let frac : ℚ := pos - i
  let i1 : ℤ := if i + 1 ≥ buf.length then 0 else i + 1
  getQ buf i * (1 - frac) + getQ buf i1 * frac

/-! ### Grain scheduling (GranularProcessor.scheduleGrainForVoice) -/

/-- The scheduleGrainForVoice method.  Arguments mirror the fields it reads:
the segment length in frames, the segment sample rate, the three scheduling
parameters, the RNG state and the voice.  It returns the advanced RNG state
and the updated voice.  The early return on an empty segment performs no
state change at all. -/
def scheduleGrainForVoice (len : ℕ) (srcSR gs ov jit : ℚ) (rng : ℕ)
    (v : Voice) : ℕ × Voice :=
  if len = 0 then (rng, v) else
  let grainFrames : ℕ := (max 16 ⌊gs * srcSR⌋).toNat
  let rng1 := rngStep rng
  let startFrame : ℤ := ⌊rngVal rng1 * ((len : ℚ) - grainFrames - 1)⌋
  let rng2 := rngStep rng1
  let jitterFrames : ℤ := ⌊jit * srcSR * (rngVal rng2 * 2 - 1)⌋
  let sL : ℤ := clampInt (startFrame + jitterFrames) 0 ((len : ℤ) - grainFrames - 1)
  let g : Grain := ⟨(sL : ℚ), (sL : ℚ), grainFrames, 0, v.rate, v.gain⟩
  let intervalSec : ℚ := max (1 / 1000) (gs * (1 - ov))
  (rng2, { v with grains := v.grains ++ [g],
                  nextGrainAt := v.nextGrainAt + intervalSec })

/-! ### The catch-up scheduling loop of GranularProcessor.process, step 1 -/

/-- Fuel that suffices for the catch-up while-loop: every completed iteration
raises nextGrainAt by at least 1/1000 seconds, so this many iterations push
it past time + 1e-6. -/
def schedFuel (v : Voice) : ℕ :=
  (⌈(v.time + 1 / 1000000 - v.nextGrainAt) * 1000⌉ + 1).toNat

/-- The while-loop body: while nextGrainAt is not past time + 1e-6, schedule
one grain.  The fuel argument makes the recursion structural; process always
supplies schedFuel, which is proved sufficient below. -/
def schedLoopF (len : ℕ) (srcSR gs ov jit : ℚ) :
    ℕ → ℕ → Voice → ℕ × Voice
  | 0, rng, v => (rng, v)
  | fuel + 1, rng, v =>
    if v.nextGrainAt ≤ v.time + 1 / 1000000 then
      schedLoopF len srcSR gs ov jit fuel
        (scheduleGrainForVoice len srcSR gs ov jit rng v).1
        (scheduleGrainForVoice len srcSR gs ov jit rng v).2
    else (rng, v)

/-- The per-voice part of scheduling step 1 of process: the guarding if, the
first-time reset of nextGrainAt when the local clock is still zero, and the
catch-up loop. -/
def schedVoice (len : ℕ) (srcSR gs ov jit : ℚ) (rng : ℕ) (v : Voice) :
    ℕ × Voice :=
  if v.nextGrainAt ≤ v.time + 1 / 1000000 then
    let v0 := if v.time = 0 then { v with nextGrainAt := 0 } else v
    schedLoopF len srcSR gs ov jit (schedFuel v0) rng v0
  else (rng, v)

/-- Scheduling step 1 of process over all voices, in pool (insertion) order,
threading the shared RNG through. -/
def scheduleAll (len : ℕ) (srcSR gs ov jit : ℚ) (rng : ℕ)
    (vs : List Voice) : ℕ × List Voice :=
  vs.foldl
    (fun acc v =>
      let p := schedVoice len srcSR gs ov jit acc.1 v
      (p.1, acc.2 ++ [p.2]))
    (rng, [])

/-! ### Per-sample synthesis, step 2 of GranularProcessor.process -/

/-- The hann window helper: 0.5 * (1 - cos(2*pi*i/(n-1))). -/
noncomputable def hannR (n i : ℕ) : ℝ :=
  1 / 2 * (1 - Real.cos (2 * Real.pi * i / ((n : ℝ) - 1)))

/-- Wrapping of a grain position that ran past the segment end, as done at
the bottom of the per-grain loop: a single conditional subtraction. -/
def wrapPos (len : ℕ) (p : ℚ) : ℚ :=
  if (len : ℚ) ≤ p then p - len else p

/-- Advance one grain after its sample was mixed: move both read positions by
rate, advance the window index, retire the grain when the index reaches its
length, otherwise wrap the positions. -/
def advanceGrain (len : ℕ) (g : Grain) : Option Grain :=
  let g1 := { g with posL := g.posL + g.rate, posR := g.posR + g.rate,
                     idx := g.idx + 1 }
  if g1.idx ≥ g1.lengthFrames then none
  else some { g1 with posL := wrapPos len g1.posL, posR := wrapPos len g1.posR }

/-- One voice at one sample: sum the windowed, interpolated contribution of
every live grain (sample * window * grain gain per channel), then advance and
retire grains. -/
noncomputable def voiceSample (srcL srcR : List ℚ) (len : ℕ) (v : Voice) :
    (ℝ × ℝ) × Voice :=
  let mixL : ℝ := (v.grains.map
    (fun g => ((readInterp srcL g.posL : ℚ) : ℝ)
      * hannR g.lengthFrames g.idx * (g.gain : ℝ))).sum
  let mixR : ℝ := (v.grains.map
    (fun g => ((readInterp srcR g.posR : ℚ) : ℝ)
      * hannR g.lengthFrames g.idx * (g.gain : ℝ))).sum
  ((mixL, mixR), { v with grains := v.grains.filterMap (advanceGrain len) })

/-- All voices at one sample, in pool order: accumulate the stereo mix and
drop a voice as soon as it is released with an empty grain list. -/
noncomputable def mixVoices (srcL srcR : List ℚ) (len : ℕ) (vs : List Voice) :
    (ℝ × ℝ) × List Voice :=
  vs.foldl
    (fun acc v =>
      let r := voiceSample srcL srcR len v
      ((acc.1.1 + r.1.1, acc.1.2 + r.1.2),
       if r.2.isOn = false ∧ r.2.grains = [] then acc.2 else acc.2 ++ [r.2]))
    ((0, 0), [])

/-! ### Timbre shaper (GranularProcessor.applyEQ and onePoleAlpha) -/

/-- One-pole coefficient: 1 - exp(-2*pi*max(1,cutHz)/max(1,sr)). -/
noncomputable def onePoleAlpha (cutHz sr : ℝ) : ℝ :=
  1 - Real.exp (-2 * Real.pi * max 1 cutHz / max 1 sr)

/-- The persistent filter state pair of one channel ({ lp, hp } objects). -/
structure EqSt where
  lp : ℝ
  hp : ℝ

/-- The applyEQ method: update the low-pass state toward the sample with the
tilt-shifted cutoff, update the high-pass state with a fixed 200 Hz cutoff,
and blend low-passed and high-passed signals by brightness. -/
noncomputable def applyEQ (tilt b sr s : ℝ) (st : EqSt) : EqSt × ℝ :=
  let cutoff := 1200 * (2 : ℝ) ^ (tilt / 2)
  let lp := st.lp + onePoleAlpha cutoff sr * (s - st.lp)
  let hp := st.hp + onePoleAlpha 200 sr * (s - st.hp)
  let hpOut := s - hp
  (⟨lp, hp⟩, lp * (1 / 2 - 1 / 2 * b) + hpOut * (1 / 2 + 1 / 2 * b))

/-- Accumulator of the per-sample loop: the voice pool and both channel
filter states. -/
structure RenderAcc where
  voices : List Voice
  eqL : EqSt
  eqR : EqSt

/-- One sample of step 2 of process: mix all voices, then shape each channel
with its persistent filter state. -/
noncomputable def sampleStep (srcL srcR : List ℚ) (len : ℕ) (tilt b sr : ℝ)
    (acc : RenderAcc) : RenderAcc × (ℝ × ℝ) :=
  let m := mixVoices srcL srcR len acc.voices
  let l := applyEQ tilt b sr m.1.1 acc.eqL
  let r := applyEQ tilt b sr m.1.2 acc.eqR
  (⟨m.2, l.1, r.1⟩, (l.2, r.2))

/-- The whole per-sample loop over one block of q samples, producing the two
output channels in order. -/
noncomputable def renderSamples (srcL srcR : List ℚ) (len : ℕ)
    (tilt b sr : ℝ) : ℕ → RenderAcc → RenderAcc × List ℝ × List ℝ
  | 0, acc => (acc, [], [])
  | q + 1, acc =>
    let s := sampleStep srcL srcR len tilt b sr acc
    let rest := renderSamples srcL srcR len tilt b sr q s.1
    (rest.1, s.2.1 :: rest.2.1, s.2.2 :: rest.2.2)

/-! ### Processor state and message handling (GranularProcessor) -/

/-- The mutable fields of GranularProcessor other than the two EQ filter
states: source channels, source sample rate, segment length (the minimum of
the channel lengths), the voice pool in insertion order, the capacity, the
RNG state, and the two shaper parameters. -/
structure PState where
  srcL : List ℚ
  srcR : List ℚ
  srcSR : ℚ
  len : ℕ
  voices : List Voice
  maxVoices : ℕ
  rng : ℕ
  formantTilt : ℚ
  brightness : ℚ
  deriving DecidableEq, Repr

/-- The constructor state: no buffer, 44100 source rate, empty pool,
capacity 32, RNG seeded with 123456, neutral shaper parameters. -/
def initPState : PState :=
  ⟨[], [], 44100, 0, [], 32, 123456, 0, 0⟩

/-- The port messages the processor understands.  A missing shaper field of
setParams is an absent Option (the code tests typeof === number). -/
inductive Msg where
  | loadBuffer (sampleRate : ℚ) (channels : List (List ℚ))
  | noteOn (id : ℕ) (rate gain : ℚ)
  | noteOff (id : ℕ)
  | setParams (formantTilt brightness : Option ℚ)
  deriving DecidableEq, Repr

/-- Map.set semantics on the insertion-ordered pool: replace in place when
the id exists, append otherwise. -/
def setVoice (l : List Voice) (v : Voice) : List Voice :=
  if l.any (fun w => w.id == v.id) then
    l.map (fun w => if w.id == v.id then v else w)
  else l ++ [v]

/-- The handleMessage method.  loadBuffer with an empty channel list clears
the buffer; otherwise the second channel aliases the first when absent and a
falsy sample rate falls back to 44100.  noteOn drops the request at
capacity, else inserts a fresh voice under its id.  noteOff clears the on
flag of the addressed voice, if any.  setParams clamps each supplied shaper
field into [-1, 1]. -/
def handleMessage (st : PState) (m : Msg) : PState :=
  match m with
  | .loadBuffer sr channels =>
    match channels with
    | [] => { st with srcL := [], srcR := [], len := 0 }
    | l :: rest =>
      let r := rest.headD l
      { st with srcL := l, srcR := r, len := min l.length r.length,
                srcSR := if sr = 0 then 44100 else sr }
  | .noteOn id rate gain =>
    if st.voices.length ≥ st.maxVoices then st
    else { st with voices := setVoice st.voices (Voice.mk0 id rate gain) }
  | .noteOff id =>
    { st with voices :=
        st.voices.map (fun v => if v.id == id then { v with isOn := false } else v) }
  | .setParams t? b? =>
    let st1 := match t? with
      | some t => { st with formantTilt := clampQ t (-1) 1 }
      | none => st
    match b? with
    | some b => { st1 with brightness := clampQ b (-1) 1 }
    | none => st1

/-- The full processor state: PState plus the two per-channel filter state
pairs. -/
structure FullState where
  ps : PState
  eqL : EqSt
  eqR : EqSt

/-- The processor state right after construction. -/
def initFull : FullState :=
  ⟨initPState, ⟨0, 0⟩, ⟨0, 0⟩⟩

/-- The process method for one block: clamp the k-rate overlap and jitter
parameters, output silence and change nothing when no segment is loaded,
otherwise run scheduling step 1, the per-sample loop of step 2 with the
shaper, and finally advance every remaining local clock by the block
duration q / procSR. -/
noncomputable def process (procSR : ℚ) (st : FullState) (gsP ovP jitP : ℚ)
    (q : ℕ) : FullState × List ℝ × List ℝ :=
  let ov := clampQ ovP 0 (19 / 20)
  let jit := clampQ jitP 0 (1 / 50)
  if st.ps.len = 0 ∨ st.ps.srcL.length = 0 then
    (st, List.replicate q 0, List.replicate q 0)
  else
    let sched := scheduleAll st.ps.len st.ps.srcSR gsP ov jit st.ps.rng
      st.ps.voices
    let r := renderSamples st.ps.srcL st.ps.srcR st.ps.len
      (st.ps.formantTilt : ℝ) (st.ps.brightness : ℝ) (procSR : ℝ) q
      ⟨sched.2, st.eqL, st.eqR⟩
    let voicesOut := r.1.voices.map
      (fun v => { v with time := v.time + (q : ℚ) / procSR })
    (⟨{ st.ps with rng := sched.1, voices := voicesOut },
      r.1.eqL, r.1.eqR⟩, r.2.1, r.2.2)

/-! ### Whole-run semantics: a processor fed a sequence of messages and
render callbacks from its construction -/

/-- One external event: either a port message or one render callback with
the block size and the k-rate parameter values the host delivers for that
block. -/
inductive Ev where
  | msg (m : Msg)
  | render (gs ov jit : ℚ) (q : ℕ)

/-- Run the processor from a given state over an event sequence, collecting
the pair of output channels of every render callback in order. -/
noncomputable def runOut (procSR : ℚ) :
    FullState → List Ev → FullState × List (List ℝ × List ℝ)
  | st, [] => (st, [])
  | st, .msg m :: rest => runOut procSR ⟨handleMessage st.ps m, st.eqL, st.eqR⟩ rest
  | st, .render gs ov jit q :: rest =>
    let p := process procSR st gs ov jit q
    let r := runOut procSR p.1 rest
    (r.1, p.2 :: r.2)

/-! ### Segment preparation (samplerInstrument.js, applyEdgeFades) -/

/-- Index-addressed update of every element, the shape of the two in-place
for-loops of applyEdgeFades. -/
def mapWithIndex (f : ℕ → ℚ → ℚ) : ℕ → List ℚ → List ℚ
  | _, [] => []
  | i, x :: xs => f i x :: mapWithIndex f (i + 1) xs

/-- The applyEdgeFades function on one channel.  The first pass is the
fade-in loop (data[i] *= i/fadeN for i < fadeN); the second pass is the
fade-out loop exactly as written in the source: data[n-1-i] *= 1 - i/fadeN
for i < fadeN, which at position p multiplies by 1 - (n-1-p)/fadeN. -/
def applyEdgeFades (sr fadeSec : ℚ) (data : List ℚ) : List ℚ :=
  let n := data.length
  let fadeN : ℕ := min (n / 2) ((max 1 ⌊fadeSec * sr⌋).toNat)
  let pass1 := mapWithIndex
    (fun i x => if i < fadeN then x * ((i : ℚ) / fadeN) else x) 0 data
  mapWithIndex
    (fun i x => if n - fadeN ≤ i then x * (1 - ((n - 1 - i : ℕ) : ℚ) / fadeN) else x)
    0 pass1

/-- The fade duration createGranularInstrument passes to applyEdgeFades:
min(0.01, duration * 0.05) where duration = length / sampleRate of the
extracted segment. -/
def edgeFadeSec (n : ℕ) (sr : ℚ) : ℚ :=
  min (1 / 100) (((n : ℚ) / sr) * (1 / 20))

/-! ### Control interface (samplerInstrument.js, worklet branch of
createGranularInstrument) -/

/-- A command forwarded to the render engine over the port. -/
inductive Cmd where
  | noteOn (id : ℕ) (rate gain : ℝ)
  | noteOff (id : ℕ)

/-- The control-side state of the worklet-branch instrument: the base MIDI
note fixed at build time, the live transpose parameter, the id generator
state (makeIdGen keeps the last issued value, starting from 1), and the
insertion-ordered midi-to-voice-id map named active in the source. -/
structure InstSt where
  baseNote : ℤ
  transpose : ℝ
  nextId : ℕ
  active : List (ℤ × ℕ)

/-- The midiToPlaybackRate helper: 2 ^ ((midi - baseNote + transpose)/12). -/
noncomputable def midiToPlaybackRate (st : InstSt) (midi : ℤ) : ℝ :=
  (2 : ℝ) ^ ((((midi - st.baseNote : ℤ) : ℝ) + st.transpose) / 12)

/-- Lookup in the active map (Map.get on midi). -/
def lookupActive (l : List (ℤ × ℕ)) (m : ℤ) : Option ℕ :=
  (l.find? (fun p => p.1 == m)).map (fun p => p.2)

/-- Deletion from the active map (Map.delete on midi). -/
def eraseActive (l : List (ℤ × ℕ)) (m : ℤ) : List (ℤ × ℕ) :=
  l.filter (fun p => !(p.1 == m))

/-- Insertion into the active map (Map.set on midi). -/
def setActive (l : List (ℤ × ℕ)) (m : ℤ) (id : ℕ) : List (ℤ × ℕ) :=
  if l.any (fun p => p.1 == m) then
    l.map (fun p => if p.1 == m then (m, id) else p)
  else l ++ [(m, id)]

/-- The clamp helper of samplerInstrument.js over the reals. -/
def clampR (v a b : ℝ) : ℝ := max a (min b v)

/-- The noteOff closure of the worklet branch: a no-op when no voice is
active for the pitch, otherwise remove the map entry and forward NoteOff for
its id. -/
def instNoteOff (st : InstSt) (midi : ℤ) : InstSt × List Cmd :=
  match lookupActive st.active midi with
  | none => (st, [])
  | some id => ({ st with active := eraseActive st.active midi }, [Cmd.noteOff id])

/-- The noteOn closure of the worklet branch: release any voice already
active for the pitch, draw a fresh id from the generator (i = (i+1) >>> 0),
record it in the active map and forward NoteOn with the pitch-derived rate
and the velocity clamped into [0.001, 1]. -/
noncomputable def instNoteOn (st : InstSt) (midi : ℤ) (vel : ℝ) :
    InstSt × List Cmd :=
  let r0 := if (lookupActive st.active midi).isSome then instNoteOff st midi
    else (st, [])
  let id := (r0.1.nextId + 1) % 2 ^ 32
  ({ r0.1 with nextId := id, active := setActive r0.1.active midi id },
   r0.2 ++ [Cmd.noteOn id (midiToPlaybackRate r0.1 midi) (clampR vel (1 / 1000) 1)])

/-! ### Basic facts about the embedded operations -/

theorem rngVal_nonneg (s : ℕ) : 0 ≤ rngVal s := by
  unfold rngVal
  positivity

theorem rngVal_lt_one (s : ℕ) : rngVal s < 1 := by
  unfold rngVal
  rw [div_lt_one (by positivity)]
  exact_mod_cast Nat.mod_lt _ (by positivity)

theorem scheduleGrain_nextGrainAt (len : ℕ) (srcSR gs ov jit : ℚ) (rng : ℕ)
    (v : Voice) (h : len ≠ 0) :
    (scheduleGrainForVoice len srcSR gs ov jit rng v).2.nextGrainAt =
      v.nextGrainAt + max (1 / 1000) (gs * (1 - ov)) := by
  simp [scheduleGrainForVoice, h]

theorem scheduleGrain_time (len : ℕ) (srcSR gs ov jit : ℚ) (rng : ℕ)
    (v : Voice) (h : len ≠ 0) :
    (scheduleGrainForVoice len srcSR gs ov jit rng v).2.time = v.time := by
  simp [scheduleGrainForVoice, h]

theorem scheduleGrain_isOn (len : ℕ) (srcSR gs ov jit : ℚ) (rng : ℕ)
    (v : Voice) (h : len ≠ 0) :
    (scheduleGrainForVoice len srcSR gs ov jit rng v).2.isOn = v.isOn := by
  simp [scheduleGrainForVoice, h]

/-- The grain length computed inside scheduleGrainForVoice:
max(16, floor(grainSizeSec * sampleRate)). -/
def newGrainFrames (gs srcSR : ℚ) : ℕ :=
  (max 16 ⌊gs * srcSR⌋).toNat

/-- The clamped start position computed inside scheduleGrainForVoice:
floor(rand * (len - grainFrames - 1)) plus the floored jitter offset,
clamped into [0, len - grainFrames - 1]. -/
def newGrainStart (len : ℕ) (srcSR gs jit : ℚ) (rng : ℕ) : ℤ :=
  clampInt
    (⌊rngVal (rngStep rng) * ((len : ℚ) - newGrainFrames gs srcSR - 1)⌋ +
      ⌊jit * srcSR * (rngVal (rngStep (rngStep rng)) * 2 - 1)⌋)
    0 ((len : ℤ) - newGrainFrames gs srcSR - 1)

theorem scheduleGrain_grains (len : ℕ) (srcSR gs ov jit : ℚ) (rng : ℕ)
    (v : Voice) (h : len ≠ 0) :
    (scheduleGrainForVoice len srcSR gs ov jit rng v).2.grains =
      v.grains ++
        [⟨(newGrainStart len srcSR gs jit rng : ℚ),
          (newGrainStart len srcSR gs jit rng : ℚ),
          newGrainFrames gs srcSR, 0, v.rate, v.gain⟩] := by
  simp [scheduleGrainForVoice, newGrainFrames, newGrainStart, h]

/-- The interval added per scheduled grain is at least one millisecond, the
floor the source imposes with Math.max(0.001, ...). -/
theorem interval_ge (gs ov : ℚ) : 1 / 1000 ≤ max (1 / 1000) (gs * (1 - ov)) :=
  le_max_left _ _

/-- The fuel process passes to the embedded catch-up loop is sufficient: the
loop exits with nextGrainAt strictly past time + 1e-6 whenever the segment
is non-empty (which process guarantees before scheduling). -/
theorem schedLoopF_exit (len : ℕ) (srcSR gs ov jit : ℚ) (h : len ≠ 0) :
    ∀ (fuel rng : ℕ) (v : Voice), schedFuel v ≤ fuel →
      ¬ ((schedLoopF len srcSR gs ov jit fuel rng v).2.nextGrainAt ≤
          (schedLoopF len srcSR gs ov jit fuel rng v).2.time + 1 / 1000000) := by
  intro fuel
  induction fuel with
  | zero =>
    intro rng v hf
    simp only [schedLoopF]
    intro hle
    have h0 : schedFuel v = 0 := Nat.le_zero.mp hf
    unfold schedFuel at h0
    rw [Int.toNat_eq_zero] at h0
    have h2 : (⌈(v.time + 1 / 1000000 - v.nextGrainAt) * 1000⌉ : ℤ) ≤ -1 := by
      omega
    have h2q : ((⌈(v.time + 1 / 1000000 - v.nextGrainAt) * 1000⌉ : ℤ) : ℚ) ≤ -1 := by
      exact_mod_cast h2
    have h1 : ((v.time + 1 / 1000000 - v.nextGrainAt) * 1000 : ℚ) ≤
        ((⌈(v.time + 1 / 1000000 - v.nextGrainAt) * 1000⌉ : ℤ) : ℚ) :=
      Int.le_ceil _
    nlinarith
  | succ fuel ih =>
    intro rng v hf
    by_cases hc : v.nextGrainAt ≤ v.time + 1 / 1000000
    · rw [schedLoopF, if_pos hc]
      apply ih
      -- the fuel measure strictly decreases across one scheduled grain
      have ht := scheduleGrain_time len srcSR gs ov jit rng v h
      have hn := scheduleGrain_nextGrainAt len srcSR gs ov jit rng v h
      set p := scheduleGrainForVoice len srcSR gs ov jit rng v with hp
      unfold schedFuel
      rw [ht, hn]
      have hX : (0 : ℚ) ≤ (v.time + 1 / 1000000 - v.nextGrainAt) * 1000 := by
        nlinarith
      have hceil0 : (0 : ℤ) ≤ ⌈(v.time + 1 / 1000000 - v.nextGrainAt) * 1000⌉ :=
        Int.ceil_nonneg hX
      have hstep : (v.time + 1 / 1000000 -
          (v.nextGrainAt + max (1 / 1000) (gs * (1 - ov)))) * 1000 ≤
          (v.time + 1 / 1000000 - v.nextGrainAt) * 1000 - 1 := by
        have := interval_ge gs ov
        nlinarith
      have hceil : ⌈(v.time + 1 / 1000000 -
          (v.nextGrainAt + max (1 / 1000) (gs * (1 - ov)))) * 1000⌉ ≤
          ⌈(v.time + 1 / 1000000 - v.nextGrainAt) * 1000⌉ - 1 := by
        calc ⌈(v.time + 1 / 1000000 -
            (v.nextGrainAt + max (1 / 1000) (gs * (1 - ov)))) * 1000⌉
            ≤ ⌈(v.time + 1 / 1000000 - v.nextGrainAt) * 1000 - 1⌉ :=
              Int.ceil_mono hstep
          _ = ⌈(v.time + 1 / 1000000 - v.nextGrainAt) * 1000⌉ - 1 := by
              exact_mod_cast Int.ceil_sub_int _ 1
      have hfv : schedFuel v ≤ fuel + 1 := hf
      unfold schedFuel at hfv
      omega
    · rw [schedLoopF, if_neg hc]
      exact hc

/-! ### Claim C6: no segment loaded means silence, not an error -/

/-- C6: when no segment is loaded (segment length 0), a render-block
invocation writes all zeros to both output channels and returns normally,
leaving the whole state unchanged, regardless of the voices or parameters
present. -/
theorem C6_no_segment_silence (procSR : ℚ) (st : FullState)
    (gsP ovP jitP : ℚ) (q : ℕ) (h : st.ps.len = 0) :
    process procSR st gsP ovP jitP q =
      (st, List.replicate q 0, List.replicate q 0) := by
  simp [process, h]

/-- Witness for C6 at the freshly constructed processor and a 128-frame
block. -/
theorem C6_no_segment_silence_witness :
    process 48000 initFull (1 / 25) (1 / 2) (1 / 500) 128 =
      (initFull, List.replicate 128 0, List.replicate 128 0) :=
  C6_no_segment_silence 48000 initFull (1 / 25) (1 / 2) (1 / 500) 128 rfl

/-! ### Claim C4: the scheduling interval -/

/-- C4, counterexample: at grainSizeSec = 0.01 and overlap = 0.94 (inside
the claimed range [0, 0.95)), the interval the code adds to nextGrainAt is
0.001, not grainSizeSec * (1 - overlap) = 0.0006 as the claim asserts for
all such parameters. -/
theorem C4_counterexample :
    (scheduleGrainForVoice 1000 1000 (1 / 100) (47 / 50) 0 123456
        (Voice.mk0 7 1 (9 / 10))).2.nextGrainAt -
      (Voice.mk0 7 1 (9 / 10)).nextGrainAt ≠ (1 / 100) * (1 - 47 / 50) := by
  rw [scheduleGrain_nextGrainAt 1000 1000 (1 / 100) (47 / 50) 0 123456
    (Voice.mk0 7 1 (9 / 10)) (by norm_num)]
  norm_num [Voice.mk0]

/-- C4, amended: the interval from a scheduled grain to the next equals
max(0.001, grainSizeSec * (1 - overlap)); whenever that product is at least
0.001 it equals the product itself, and overlap = 0 with grainSizeSec at
least 0.001 yields abutting grains, the interval being exactly
grainSizeSec. -/
theorem C4_interval (len : ℕ) (srcSR gs ov jit : ℚ) (rng : ℕ) (v : Voice)
    (h : len ≠ 0) :
    (scheduleGrainForVoice len srcSR gs ov jit rng v).2.nextGrainAt =
        v.nextGrainAt + max (1 / 1000) (gs * (1 - ov))
    ∧ (1 / 1000 ≤ gs * (1 - ov) →
        (scheduleGrainForVoice len srcSR gs ov jit rng v).2.nextGrainAt =
          v.nextGrainAt + gs * (1 - ov))
    ∧ (ov = 0 → 1 / 1000 ≤ gs →
        (scheduleGrainForVoice len srcSR gs ov jit rng v).2.nextGrainAt =
          v.nextGrainAt + gs) := by
  refine ⟨scheduleGrain_nextGrainAt len srcSR gs ov jit rng v h, ?_, ?_⟩
  · intro hge
    rw [scheduleGrain_nextGrainAt len srcSR gs ov jit rng v h, max_eq_right hge]
  · intro hov hge
    subst hov
    rw [scheduleGrain_nextGrainAt len srcSR gs 0 jit rng v h]
    rw [show gs * (1 - (0 : ℚ)) = gs by ring] at *
    rw [max_eq_right hge]

/-- Witness for C4 at default-like parameters: grain size 0.04 and overlap
0.5 give an interval of exactly 0.02 seconds. -/
theorem C4_interval_witness :
    (scheduleGrainForVoice 1000 1000 (1 / 25) (1 / 2) 0 123456
        (Voice.mk0 7 1 (9 / 10))).2.nextGrainAt =
      (Voice.mk0 7 1 (9 / 10)).nextGrainAt + (1 / 25) * (1 - 1 / 2) :=
  (C4_interval 1000 1000 (1 / 25) (1 / 2) 0 123456 (Voice.mk0 7 1 (9 / 10))
    (by norm_num)).2.1 (by norm_num)

/-! ### Claim C5: the newly created grain -/

/-- C5, counterexample: at grainSizeSec = 0.045 and source rate 44100 the
code floors 1984.5 to 1984 frames, while the claimed formula
max(16, round(grainSizeSec * sampleRate)) rounds to 1985. -/
theorem C5_counterexample :
    ((scheduleGrainForVoice 10000 44100 (9 / 200) (1 / 2) 0 123456
        (Voice.mk0 7 1 (9 / 10))).2.grains.map Grain.lengthFrames = [1984])
    ∧ (1984 : ℤ) ≠ max 16 (round ((9 / 200 : ℚ) * 44100)) := by
  constructor
  · rw [scheduleGrain_grains 10000 44100 (9 / 200) (1 / 2) 0 123456
      (Voice.mk0 7 1 (9 / 10)) (by norm_num)]
    norm_num [Voice.mk0, newGrainFrames]
    omega
  · norm_num [round_eq]

/-- C5, amended: the new grain appended by the scheduler has length
max(16, floor(grainSizeSec * sampleRate)) frames; its start position is
floor(u * (len - grainFrames - 1)) for the uniform draw u in [0, 1),
perturbed by floor(jitterSec * sampleRate * (2u2 - 1)) and clamped into
[0, len - grainFrames - 1]; the clamped position is never negative and,
when the segment has room for the grain, never exceeds
len - grainFrames - 1. -/
theorem C5_new_grain (len : ℕ) (srcSR gs ov jit : ℚ) (rng : ℕ) (v : Voice)
    (h : len ≠ 0) :
    (scheduleGrainForVoice len srcSR gs ov jit rng v).2.grains =
        v.grains ++
          [⟨(newGrainStart len srcSR gs jit rng : ℚ),
            (newGrainStart len srcSR gs jit rng : ℚ),
            newGrainFrames gs srcSR, 0, v.rate, v.gain⟩]
    ∧ 16 ≤ newGrainFrames gs srcSR
    ∧ 0 ≤ newGrainStart len srcSR gs jit rng
    ∧ ((newGrainFrames gs srcSR : ℤ) + 1 ≤ len →
        newGrainStart len srcSR gs jit rng ≤
          (len : ℤ) - newGrainFrames gs srcSR - 1) := by
  refine ⟨scheduleGrain_grains len srcSR gs ov jit rng v h, ?_, ?_, ?_⟩
  · have h16 : (16 : ℤ) ≤ max 16 ⌊gs * srcSR⌋ := le_max_left _ _
    unfold newGrainFrames
    omega
  · exact le_max_left _ _
  · intro hroom
    unfold newGrainStart clampInt
    exact max_le (by omega) (min_le_left _ _)

/-- Witness for C5 at the 0.045 s / 44100 Hz configuration on a 10000-frame
segment: the scheduled start position is non-negative. -/
theorem C5_new_grain_witness :
    0 ≤ newGrainStart 10000 44100 (9 / 200) 0 123456 :=
  (C5_new_grain 10000 44100 (9 / 200) (1 / 2) 0 123456
    (Voice.mk0 7 1 (9 / 10)) (by norm_num)).2.2.1

/-! ### Claim C2: edge fades of the prepared segment -/

/-- C2: on a constant-1 segment of 40 frames at 200 Hz (fade length 2), the
first edge is faded in correctly (first sample 0, second 1/2), but the
fade-out loop of applyEdgeFades is inverted: going forward in time the tail
gains are 1/2 then 1, so the last sample of the prepared segment keeps full
scale instead of reaching zero. -/
theorem C2_edge_fade_out_inverted :
    (applyEdgeFades 200 (edgeFadeSec 40 200) (List.replicate 40 1)).getD 0 9 = 0
    ∧ (applyEdgeFades 200 (edgeFadeSec 40 200) (List.replicate 40 1)).getD 1 9 =
        1 / 2
    ∧ (applyEdgeFades 200 (edgeFadeSec 40 200) (List.replicate 40 1)).getD 38 9 =
        1 / 2
    ∧ (applyEdgeFades 200 (edgeFadeSec 40 200) (List.replicate 40 1)).getD 39 9 =
        1 := by
  norm_num [applyEdgeFades, edgeFadeSec, mapWithIndex, List.replicate, List.getD]
  constructor
  · simp
  · simp
    norm_num

/-! ### Claim C1: scheduling after NoteOff -/

/-- A released voice (on flag already cleared by a NoteOff) midway through
playback: local clock at 10 ms, next grain due at 5 ms, one grain still
sounding. -/
def vRel : Voice :=
  ⟨1, 1, 9 / 10, false, 1 / 100, 1 / 200, [⟨0, 0, 16, 0, 1, 9 / 10⟩]⟩

/-- The catch-up loop only ever appends grains and never touches the on
flag: across any run of the loop the grain count is monotone and the flag
is preserved. -/
theorem schedLoopF_grains_mono (len : ℕ) (srcSR gs ov jit : ℚ)
    (h : len ≠ 0) :
    ∀ (fuel rng : ℕ) (v : Voice),
      v.grains.length ≤
          (schedLoopF len srcSR gs ov jit fuel rng v).2.grains.length
      ∧ (schedLoopF len srcSR gs ov jit fuel rng v).2.isOn = v.isOn := by
  intro fuel
  induction fuel with
  | zero => intro rng v; exact ⟨le_rfl, rfl⟩
  | succ fuel ih =>
    intro rng v
    by_cases hc : v.nextGrainAt ≤ v.time + 1 / 1000000
    · rw [schedLoopF, if_pos hc]
      have hg := scheduleGrain_grains len srcSR gs ov jit rng v h
      have ho := scheduleGrain_isOn len srcSR gs ov jit rng v h
      have hlen1 : v.grains.length ≤
          (scheduleGrainForVoice len srcSR gs ov jit rng v).2.grains.length := by
        rw [hg, List.length_append]
        omega
      obtain ⟨ih1, ih2⟩ := ih (scheduleGrainForVoice len srcSR gs ov jit rng v).1
        (scheduleGrainForVoice len srcSR gs ov jit rng v).2
      exact ⟨le_trans hlen1 ih1, ih2.trans ho⟩
    · rw [schedLoopF, if_neg hc]
      exact ⟨le_rfl, rfl⟩

/-- C1: the per-voice scheduling step of process never consults the on
flag, so a voice already released by noteOff (isOn = false) whose next
grain is due still receives at least one freshly scheduled grain during the
next render block: its grain count strictly grows and it stays in the pool
released.  This contradicts the claimed Releasing behaviour of scheduling
no new grains after NoteOff. -/
theorem C1_released_voice_gets_new_grain (len : ℕ) (srcSR gs ov jit : ℚ)
    (rng : ℕ) (v : Voice) (hlen : len ≠ 0) (hoff : v.isOn = false)
    (hdue : v.nextGrainAt ≤ v.time + 1 / 1000000) :
    v.grains.length + 1 ≤
        (schedVoice len srcSR gs ov jit rng v).2.grains.length
    ∧ (schedVoice len srcSR gs ov jit rng v).2.isOn = false := by
  simp only [schedVoice]
  rw [if_pos hdue]
  set v0 : Voice := if v.time = 0 then { v with nextGrainAt := 0 } else v with hv0
  have hgr : v0.grains = v.grains := by
    rw [hv0]
    split <;> rfl
  have hon : v0.isOn = v.isOn := by
    rw [hv0]
    split <;> rfl
  have hdue0 : v0.nextGrainAt ≤ v0.time + 1 / 1000000 := by
    rw [hv0]
    split
    · rename_i ht
      show (0 : ℚ) ≤ v.time + 1 / 1000000
      rw [ht]
      norm_num
    · exact hdue
  have hfuel : 1 ≤ schedFuel v0 := by
    unfold schedFuel
    have hX : (0 : ℚ) ≤ (v0.time + 1 / 1000000 - v0.nextGrainAt) * 1000 := by
      nlinarith
    have := Int.ceil_nonneg hX
    omega
  obtain ⟨k, hk⟩ : ∃ k, schedFuel v0 = k + 1 :=
    ⟨schedFuel v0 - 1, by omega⟩
  rw [hk, schedLoopF, if_pos hdue0]
  have hg := scheduleGrain_grains len srcSR gs ov jit rng v0 hlen
  have ho := scheduleGrain_isOn len srcSR gs ov jit rng v0 hlen
  obtain ⟨m1, m2⟩ := schedLoopF_grains_mono len srcSR gs ov jit hlen k
    (scheduleGrainForVoice len srcSR gs ov jit rng v0).1
    (scheduleGrainForVoice len srcSR gs ov jit rng v0).2
  constructor
  · have : (scheduleGrainForVoice len srcSR gs ov jit rng v0).2.grains.length =
        v.grains.length + 1 := by
      rw [hg, hgr, List.length_append]
      rfl
    omega
  · rw [m2, ho, hon, hoff]

/-- Witness for C1 at the released voice vRel over a 100-frame segment with
default-like parameters. -/
theorem C1_released_voice_gets_new_grain_witness :
    vRel.grains.length + 1 ≤
        (schedVoice 100 1000 (1 / 25) (1 / 2) 0 123456 vRel).2.grains.length
    ∧ (schedVoice 100 1000 (1 / 25) (1 / 2) 0 123456 vRel).2.isOn = false :=
  C1_released_voice_gets_new_grain 100 1000 (1 / 25) (1 / 2) 0 123456 vRel
    (by norm_num) rfl (by norm_num [vRel])

/-! ### Claim C7: interpolation reads in range, positions wrap -/

/-- C7: three facts about the per-sample source reads of process.  First,
for any in-range fractional position the readInterp access pattern is safe:
the floor index and its (wrapping) successor both lie inside the buffer and
the result is the linear interpolation of those two samples.  Second, the
position wrap applied after advancing a grain keeps any in-range position
in range, for any positive rate up to the segment length; a grain near the
segment end therefore wraps back toward the start instead of running out of
the buffer.  Third, the same holds verbatim for the position fields of a
grain advanced (and kept) by advanceGrain inside the render loop. -/
theorem C7_interp_and_wrap :
    (∀ (buf : List ℚ) (pos : ℚ), 0 ≤ pos → pos < buf.length →
      0 ≤ ⌊pos⌋ ∧ ⌊pos⌋.toNat < buf.length ∧
      (if ⌊pos⌋ + 1 ≥ (buf.length : ℤ) then (0 : ℤ) else ⌊pos⌋ + 1).toNat <
        buf.length ∧
      readInterp buf pos =
        buf.getD ⌊pos⌋.toNat 0 * (1 - (pos - ⌊pos⌋)) +
          buf.getD
            (if ⌊pos⌋ + 1 ≥ (buf.length : ℤ) then (0 : ℤ) else ⌊pos⌋ + 1).toNat
            0 * (pos - ⌊pos⌋))
    ∧ (∀ (len : ℕ) (pos rate : ℚ), 0 ≤ pos → pos < len → 0 < rate →
        rate ≤ len →
        0 ≤ wrapPos len (pos + rate) ∧ wrapPos len (pos + rate) < len)
    ∧ (∀ (len : ℕ) (g g' : Grain), advanceGrain len g = some g' →
        0 ≤ g.posL → g.posL < len → 0 ≤ g.posR → g.posR < len → 0 < g.rate →
        g.rate ≤ len →
        (0 ≤ g'.posL ∧ g'.posL < len) ∧ (0 ≤ g'.posR ∧ g'.posR < len)) := by
  have hwrap : ∀ (len : ℕ) (pos rate : ℚ), 0 ≤ pos → pos < len → 0 < rate →
      rate ≤ len →
      0 ≤ wrapPos len (pos + rate) ∧ wrapPos len (pos + rate) < len := by
    intro len pos rate h0 h1 h2 h3
    unfold wrapPos
    split
    · rename_i hge
      constructor
      · linarith
      · linarith
    · rename_i hlt
      push_neg at hlt
      constructor
      · linarith
      · exact hlt
  refine ⟨?_, hwrap, ?_⟩
  · intro buf pos h0 h1
    have hi0 : 0 ≤ ⌊pos⌋ := Int.floor_nonneg.mpr h0
    have hiq : ((⌊pos⌋ : ℤ) : ℚ) ≤ pos := Int.floor_le pos
    have hilt : ⌊pos⌋ < (buf.length : ℤ) := by
      have : ((⌊pos⌋ : ℤ) : ℚ) < (buf.length : ℚ) := lt_of_le_of_lt hiq h1
      exact_mod_cast this
    have hlen0 : 0 < buf.length := by
      have : (0 : ℚ) < (buf.length : ℚ) := lt_of_le_of_lt h0 h1
      exact_mod_cast this
    refine ⟨hi0, by omega, ?_, ?_⟩
    · split
      · simpa using hlen0
      · rename_i hno
        push_neg at hno
        omega
    · have h2 : 0 ≤ (if ⌊pos⌋ + 1 ≥ (buf.length : ℤ) then (0 : ℤ) else ⌊pos⌋ + 1) := by
        split
        · exact le_refl 0
        · omega
      simp only [readInterp, getQ]
      rw [if_pos hi0, if_pos h2]
  · intro len g g' hadv hL0 hL1 hR0 hR1 hr0 hr1
    simp only [advanceGrain] at hadv
    split at hadv
    · exact absurd hadv (by simp)
    · injection hadv with hg
      subst hg
      exact ⟨hwrap len g.posL g.rate hL0 hL1 hr0 hr1,
             hwrap len g.posR g.rate hR0 hR1 hr0 hr1⟩

/-- Witness for C7: a grain read position 0.5 frames before the end of a
100-frame segment, advanced at rate 4, wraps to 3.5, inside the segment. -/
theorem C7_interp_and_wrap_witness :
    0 ≤ wrapPos 100 (199 / 2 + 4) ∧ wrapPos 100 (199 / 2 + 4) < 100 :=
  C7_interp_and_wrap.2.1 100 (199 / 2) 4 (by norm_num) (by norm_num)
    (by norm_num) (by norm_num)

/-! ### Claim C9: the timbre shaper -/

/-- C9: for any formantTilt in [-1, 1] and any sample rate at least 1, one
applyEQ step updates the low-pass state with coefficient
1 - exp(-2 pi (1200 * 2^(tilt/2)) / sr) (the claimed tilt-controlled
cutoff; the internal max(1, cutoff) guard is inactive there), updates the
high-pass state with the fixed 200 Hz coefficient, and returns
lp * (0.5 - 0.5 b) + (sample - hp) * (0.5 + 0.5 b) over the updated
states. -/
theorem C9_applyEQ (tilt b sr s : ℝ) (st : EqSt) (h1 : -1 ≤ tilt)
    (h2 : tilt ≤ 1) (h3 : 1 ≤ sr) :
    (applyEQ tilt b sr s st).1.lp =
        st.lp +
          (1 - Real.exp (-2 * Real.pi * (1200 * (2 : ℝ) ^ (tilt / 2)) / sr)) *
            (s - st.lp)
    ∧ (applyEQ tilt b sr s st).1.hp =
        st.hp + (1 - Real.exp (-2 * Real.pi * 200 / sr)) * (s - st.hp)
    ∧ (applyEQ tilt b sr s st).2 =
        (applyEQ tilt b sr s st).1.lp * (1 / 2 - 1 / 2 * b) +
          (s - (applyEQ tilt b sr s st).1.hp) * (1 / 2 + 1 / 2 * b) := by
  have hmono : (2 : ℝ) ^ (-(1 : ℝ)) ≤ (2 : ℝ) ^ (tilt / 2) :=
    Real.rpow_le_rpow_of_exponent_le one_le_two (by linarith)
  have hhalf : (2 : ℝ) ^ (-(1 : ℝ)) = 1 / 2 := by
    rw [Real.rpow_neg_one]
    norm_num
  have hcut : (1 : ℝ) ≤ 1200 * (2 : ℝ) ^ (tilt / 2) := by
    nlinarith [hmono, hhalf]
  have e1 : max 1 (1200 * (2 : ℝ) ^ (tilt / 2)) = 1200 * (2 : ℝ) ^ (tilt / 2) :=
    max_eq_right hcut
  have e2 : max (1 : ℝ) sr = sr := max_eq_right h3
  have e3 : max (1 : ℝ) 200 = 200 := by norm_num
  refine ⟨?_, ?_, rfl⟩
  · simp only [applyEQ, onePoleAlpha, e1, e2]
  · simp only [applyEQ, onePoleAlpha, e2, e3]

/-- Witness for C9 at neutral tilt, brightness 1/2, 48 kHz, unit sample and
zeroed filter states. -/
theorem C9_applyEQ_witness :
    (applyEQ 0 (1 / 2) 48000 1 ⟨0, 0⟩).1.hp =
      (0 : ℝ) + (1 - Real.exp (-2 * Real.pi * 200 / 48000)) * (1 - 0) :=
  (C9_applyEQ 0 (1 / 2) 48000 1 ⟨0, 0⟩ (by norm_num) (by norm_num)
    (by norm_num)).2.1

/-! ### Claim C10: determinism of the render engine -/

/-- C10: the processor owns a fixed-seed xorshift generator (the state right
after construction carries seed 123456) and its whole-run semantics is a
pure function of the delivered event sequence: two runs from construction
over identical message/render sequences produce identical output streams
and identical final states. -/
theorem C10_deterministic :
    initFull.ps.rng = 123456
    ∧ ∀ (procSR : ℚ) (evs1 evs2 : List Ev), evs1 = evs2 →
        runOut procSR initFull evs1 = runOut procSR initFull evs2 :=
  ⟨rfl, fun _ _ _ h => by rw [h]⟩

/-- Witness for C10 on a run that loads nothing, starts one note and renders
one 128-frame block. -/
theorem C10_deterministic_witness :
    runOut 48000 initFull
        [Ev.msg (Msg.noteOn 1 1 (9 / 10)), Ev.render (1 / 25) (1 / 2) (1 / 500) 128] =
      runOut 48000 initFull
        [Ev.msg (Msg.noteOn 1 1 (9 / 10)), Ev.render (1 / 25) (1 / 2) (1 / 500) 128] :=
  C10_deterministic.2 48000 _ _ rfl

/-! ### Claim C3: the voice pool never exceeds MaxVoices -/

theorem setVoice_length_le (l : List Voice) (v : Voice) :
    (setVoice l v).length ≤ l.length + 1 := by
  unfold setVoice
  split
  · rw [List.length_map]
    omega
  · simp

theorem handleMessage_maxVoices (st : PState) (m : Msg) :
    (handleMessage st m).maxVoices = st.maxVoices := by
  cases m with
  | loadBuffer sr channels => cases channels <;> rfl
  | noteOn id rate gain =>
    simp only [handleMessage]
    split <;> rfl
  | noteOff id => rfl
  | setParams t? b? => cases t? <;> cases b? <;> rfl

theorem handleMessage_voices_le (st : PState) (m : Msg)
    (h : st.voices.length ≤ st.maxVoices) :
    (handleMessage st m).voices.length ≤ st.maxVoices := by
  cases m with
  | loadBuffer sr channels => cases channels <;> exact h
  | noteOn id rate gain =>
    simp only [handleMessage]
    split
    · exact h
    · rename_i hlt
      push_neg at hlt
      have := setVoice_length_le st.voices (Voice.mk0 id rate gain)
      show (setVoice st.voices (Voice.mk0 id rate gain)).length ≤ st.maxVoices
      omega
  | noteOff id =>
    simp only [handleMessage, List.length_map]
    exact h
  | setParams t? b? => cases t? <;> cases b? <;> exact h

theorem scheduleAll_length (len : ℕ) (srcSR gs ov jit : ℚ) (rng : ℕ)
    (vs : List Voice) :
    (scheduleAll len srcSR gs ov jit rng vs).2.length = vs.length := by
  unfold scheduleAll
  suffices hgen : ∀ (acc : ℕ × List Voice),
      (vs.foldl
        (fun acc v =>
          ((schedVoice len srcSR gs ov jit acc.1 v).1,
            acc.2 ++ [(schedVoice len srcSR gs ov jit acc.1 v).2]))
        acc).2.length = acc.2.length + vs.length by
    have := hgen (rng, [])
    simpa using this
  induction vs with
  | nil => intro acc; simp
  | cons v rest ih =>
    intro acc
    simp only [List.foldl_cons]
    rw [ih]
    simp only [List.length_append, List.length_cons, List.length_nil]
    omega

theorem mixVoices_length_le (srcL srcR : List ℚ) (len : ℕ)
    (vs : List Voice) :
    (mixVoices srcL srcR len vs).2.length ≤ vs.length := by
  unfold mixVoices
  suffices hgen : ∀ (acc : (ℝ × ℝ) × List Voice),
      (vs.foldl
        (fun acc v =>
          ((acc.1.1 + (voiceSample srcL srcR len v).1.1,
            acc.1.2 + (voiceSample srcL srcR len v).1.2),
            if (voiceSample srcL srcR len v).2.isOn = false ∧
                (voiceSample srcL srcR len v).2.grains = [] then acc.2
            else acc.2 ++ [(voiceSample srcL srcR len v).2]))
        acc).2.length ≤ acc.2.length + vs.length by
    have := hgen ((0, 0), [])
    simpa using this
  induction vs with
  | nil => intro acc; simp
  | cons v rest ih =>
    intro acc
    simp only [List.foldl_cons]
    refine le_trans (ih _) ?_
    split
    · simp only [List.length_cons]
      omega
    · simp only [List.length_append, List.length_cons, List.length_nil]
      omega

theorem renderSamples_length_le (srcL srcR : List ℚ) (len : ℕ)
    (tilt b sr : ℝ) :
    ∀ (q : ℕ) (acc : RenderAcc),
      (renderSamples srcL srcR len tilt b sr q acc).1.voices.length ≤
        acc.voices.length := by
  intro q
  induction q with
  | zero => intro acc; exact le_rfl
  | succ q ih =>
    intro acc
    rw [renderSamples]
    refine le_trans (ih _) ?_
    simp only [sampleStep]
    exact mixVoices_length_le srcL srcR len acc.voices

theorem process_voices_le (procSR : ℚ) (st : FullState) (gsP ovP jitP : ℚ)
    (q : ℕ) :
    (process procSR st gsP ovP jitP q).1.ps.voices.length ≤
        st.ps.voices.length
    ∧ (process procSR st gsP ovP jitP q).1.ps.maxVoices = st.ps.maxVoices := by
  simp only [process]
  split
  · exact ⟨le_rfl, rfl⟩
  · constructor
    · simp only [List.length_map]
      refine le_trans (renderSamples_length_le _ _ _ _ _ _ _ _) ?_
      show (scheduleAll st.ps.len st.ps.srcSR gsP (clampQ ovP 0 (19 / 20))
          (clampQ jitP 0 (1 / 50)) st.ps.rng st.ps.voices).2.length ≤
        st.ps.voices.length
      rw [scheduleAll_length]
    · rfl

theorem runOut_inv (procSR : ℚ) :
    ∀ (evs : List Ev) (st : FullState),
      st.ps.voices.length ≤ st.ps.maxVoices →
      (runOut procSR st evs).1.ps.voices.length ≤
          (runOut procSR st evs).1.ps.maxVoices
      ∧ (runOut procSR st evs).1.ps.maxVoices = st.ps.maxVoices := by
  intro evs
  induction evs with
  | nil => intro st h; exact ⟨h, rfl⟩
  | cons e rest ih =>
    intro st h
    cases e with
    | msg m =>
      rw [runOut]
      have h1 := handleMessage_voices_le st.ps m h
      have h2 := handleMessage_maxVoices st.ps m
      have := ih ⟨handleMessage st.ps m, st.eqL, st.eqR⟩
        (by show (handleMessage st.ps m).voices.length ≤ (handleMessage st.ps m).maxVoices
            rw [h2]
            exact h1)
      exact ⟨this.1, this.2.trans h2⟩
    | render gs ov jit q =>
      rw [runOut]
      simp only
      have hp := process_voices_le procSR st gs ov jit q
      have := ih (process procSR st gs ov jit q).1
        (by rw [hp.2]; exact le_trans hp.1 h)
      exact ⟨this.1, this.2.trans hp.2⟩

/-- C3: starting from the constructed processor, after any sequence of
messages and render callbacks the voice pool holds at most 32 voices; and a
NoteOn arriving when the pool size equals MaxVoices leaves the processor
state completely unchanged (the request is silently dropped). -/
theorem C3_voice_cap :
    (∀ (procSR : ℚ) (evs : List Ev),
        (runOut procSR initFull evs).1.ps.voices.length ≤ 32)
    ∧ (∀ (st : PState) (id : ℕ) (rate gain : ℚ),
        st.voices.length = st.maxVoices →
        handleMessage st (Msg.noteOn id rate gain) = st) := by
  constructor
  · intro procSR evs
    have h := runOut_inv procSR evs initFull (by norm_num [initFull, initPState])
    have h32 : (runOut procSR initFull evs).1.ps.maxVoices = 32 := h.2
    omega
  · intro st id rate gain h
    simp only [handleMessage]
    rw [if_pos (ge_of_eq h)]

/-- A pool already filled to capacity with 32 voices. -/
def pool32 : PState :=
  { initPState with voices := List.replicate 32 (Voice.mk0 0 1 1) }

/-- Witness for C3: one run with one NoteOn stays within the cap, and a
NoteOn against a full 32-voice pool is dropped without any state change. -/
theorem C3_voice_cap_witness :
    (runOut 48000 initFull [Ev.msg (Msg.noteOn 5 1 1)]).1.ps.voices.length ≤ 32
    ∧ handleMessage pool32 (Msg.noteOn 99 1 (9 / 10)) = pool32 :=
  ⟨C3_voice_cap.1 48000 [Ev.msg (Msg.noteOn 5 1 1)],
   C3_voice_cap.2 pool32 99 1 (9 / 10) (by simp [pool32, initPState])⟩

/-! ### Claim C8: the control-interface noteOn -/

theorem lookup_none_iff (l : List (ℤ × ℕ)) (m : ℤ) :
    lookupActive l m = none ↔ l.any (fun p => p.1 == m) = false := by
  unfold lookupActive
  rw [Option.map_eq_none', List.find?_eq_none, List.any_eq_false]

theorem eraseActive_any_self (l : List (ℤ × ℕ)) (m : ℤ) :
    (eraseActive l m).any (fun p => p.1 == m) = false := by
  rw [List.any_eq_false]
  intro x hx
  rw [eraseActive, List.mem_filter] at hx
  simpa using hx.2

theorem setActive_of_absent (l : List (ℤ × ℕ)) (m : ℤ) (id : ℕ)
    (h : l.any (fun p => p.1 == m) = false) :
    setActive l m id = l ++ [(m, id)] := by
  unfold setActive
  rw [h]
  rfl

theorem lookup_append_self (l : List (ℤ × ℕ)) (m : ℤ) (id : ℕ)
    (h : lookupActive l m = none) :
    lookupActive (l ++ [(m, id)]) m = some id := by
  unfold lookupActive at h ⊢
  rw [List.find?_append]
  rw [Option.map_eq_none'] at h
  rw [h]
  simp [List.find?]

theorem lookup_append_other (l : List (ℤ × ℕ)) (m m' : ℤ) (id : ℕ)
    (hne : m' ≠ m) :
    lookupActive (l ++ [(m, id)]) m' = lookupActive l m' := by
  unfold lookupActive
  rw [List.find?_append]
  have h1 : List.find? (fun p => p.1 == m') [(m, id)] = none := by
    rw [List.find?_cons_of_neg _ (by simp; omega), List.find?_nil]
  rw [h1]
  cases List.find? (fun p => p.1 == m') l <;> rfl

theorem lookup_erase_other (l : List (ℤ × ℕ)) (m m' : ℤ) (hne : m' ≠ m) :
    lookupActive (eraseActive l m) m' = lookupActive l m' := by
  induction l with
  | nil => rfl
  | cons p rest ih =>
    by_cases hp : p.1 = m
    · have h1 : eraseActive (p :: rest) m = eraseActive rest m := by
        simp [eraseActive, List.filter, hp]
      have h2 : lookupActive (p :: rest) m' = lookupActive rest m' := by
        unfold lookupActive
        rw [List.find?_cons_of_neg _ (by simp [hp]; omega)]
      rw [h1, h2, ih]
    · have h1 : eraseActive (p :: rest) m = p :: eraseActive rest m := by
        simp [eraseActive, List.filter_cons, hp]
      rw [h1]
      by_cases hp' : p.1 = m'
      · unfold lookupActive
        rw [List.find?_cons_of_pos _ (by simpa using hp'),
          List.find?_cons_of_pos _ (by simpa using hp')]
      · unfold lookupActive
        rw [List.find?_cons_of_neg _ (by simpa using hp'),
          List.find?_cons_of_neg _ (by simpa using hp')]
        exact ih

theorem eraseActive_keys_nodup (l : List (ℤ × ℕ)) (m : ℤ)
    (h : (l.map Prod.fst).Nodup) :
    ((eraseActive l m).map Prod.fst).Nodup :=
  h.sublist ((List.filter_sublist l).map Prod.fst)

theorem eraseActive_keys_not_self (l : List (ℤ × ℕ)) (m : ℤ) :
    m ∉ (eraseActive l m).map Prod.fst := by
  intro hmem
  rw [List.mem_map] at hmem
  obtain ⟨p, hp, hfst⟩ := hmem
  rw [eraseActive, List.mem_filter] at hp
  have := hp.2
  simp [hfst] at this

theorem lookup_none_not_key (l : List (ℤ × ℕ)) (m : ℤ)
    (h : lookupActive l m = none) : m ∉ l.map Prod.fst := by
  rw [lookup_none_iff, List.any_eq_false] at h
  intro hmem
  rw [List.mem_map] at hmem
  obtain ⟨p, hp, hfst⟩ := hmem
  have := h p hp
  simp [hfst] at this

/-- Shape of instNoteOn in each of its two cases: no voice yet active for
the pitch, or an existing voice that is released first. -/
theorem instNoteOn_eq (st : InstSt) (midi : ℤ) (vel : ℝ) :
    (lookupActive st.active midi = none →
      instNoteOn st midi vel =
        ({ st with nextId := (st.nextId + 1) % 2 ^ 32,
                   active := st.active ++ [(midi, (st.nextId + 1) % 2 ^ 32)] },
         [Cmd.noteOn ((st.nextId + 1) % 2 ^ 32) (midiToPlaybackRate st midi)
            (clampR vel (1 / 1000) 1)]))
    ∧ (∀ oldId, lookupActive st.active midi = some oldId →
      instNoteOn st midi vel =
        ({ st with nextId := (st.nextId + 1) % 2 ^ 32,
                   active := eraseActive st.active midi ++
                     [(midi, (st.nextId + 1) % 2 ^ 32)] },
         [Cmd.noteOff oldId,
          Cmd.noteOn ((st.nextId + 1) % 2 ^ 32) (midiToPlaybackRate st midi)
            (clampR vel (1 / 1000) 1)])) := by
  constructor
  · intro h
    have hfalse : (lookupActive st.active midi).isSome = false := by
      rw [h]
      rfl
    have hany : st.active.any (fun p => p.1 == midi) = false :=
      (lookup_none_iff _ _).mp h
    simp only [instNoteOn, hfalse, Bool.false_eq_true, if_false]
    rw [setActive_of_absent _ _ _ hany]
    rfl
  · intro oldId h
    have htrue : (lookupActive st.active midi).isSome = true := by
      rw [h]
      rfl
    have hoff : instNoteOff st midi =
        ({ st with active := eraseActive st.active midi },
         [Cmd.noteOff oldId]) := by
      unfold instNoteOff
      rw [h]
    simp only [instNoteOn, htrue, if_true, hoff]
    rw [setActive_of_absent _ _ _ (eraseActive_any_self _ _)]
    rfl

/-- C8: the worklet-branch noteOn forwards a NoteOn command carrying
rate = 2^((pitch - baseNote + transpose)/12) and the velocity clamped into
[0.001, 1], under the freshly drawn generator id; when a voice for the
pitch is already active, a NoteOff for its id is forwarded first; and with
distinct pitches in the active map, the updated map still has distinct
pitches, maps the pitch to the fresh id, and leaves every other pitch
untouched (at most one voice per pitch, polyphonic across pitches). -/
theorem C8_noteOn (st : InstSt) (midi : ℤ) (vel : ℝ) :
    (lookupActive st.active midi = none →
      (instNoteOn st midi vel).2 =
        [Cmd.noteOn ((st.nextId + 1) % 2 ^ 32)
          ((2 : ℝ) ^ ((((midi - st.baseNote : ℤ) : ℝ) + st.transpose) / 12))
          (clampR vel (1 / 1000) 1)])
    ∧ (∀ oldId, lookupActive st.active midi = some oldId →
      (instNoteOn st midi vel).2 =
        [Cmd.noteOff oldId,
         Cmd.noteOn ((st.nextId + 1) % 2 ^ 32)
          ((2 : ℝ) ^ ((((midi - st.baseNote : ℤ) : ℝ) + st.transpose) / 12))
          (clampR vel (1 / 1000) 1)])
    ∧ ((st.active.map Prod.fst).Nodup →
        ((instNoteOn st midi vel).1.active.map Prod.fst).Nodup
        ∧ lookupActive (instNoteOn st midi vel).1.active midi =
            some ((st.nextId + 1) % 2 ^ 32)
        ∧ ∀ m, m ≠ midi →
            lookupActive (instNoteOn st midi vel).1.active m =
              lookupActive st.active m) := by
  obtain ⟨hA, hB⟩ := instNoteOn_eq st midi vel
  refine ⟨?_, ?_, ?_⟩
  · intro h
    rw [hA h]
    rfl
  · intro oldId h
    rw [hB oldId h]
    rfl
  · intro hnodup
    cases hcase : lookupActive st.active midi with
    | none =>
      rw [hA hcase]
      refine ⟨?_, ?_, ?_⟩
      · simp only [List.map_append, List.map_cons, List.map_nil]
        rw [List.nodup_append]
        refine ⟨hnodup, List.nodup_singleton _, ?_⟩
        intro a ha hb
        simp only [List.mem_singleton] at hb
        subst hb
        exact lookup_none_not_key _ _ hcase ha
      · exact lookup_append_self _ _ _ hcase
      · intro m hm
        exact lookup_append_other _ _ _ _ hm
    | some oldId =>
      rw [hB oldId hcase]
      refine ⟨?_, ?_, ?_⟩
      · simp only [List.map_append, List.map_cons, List.map_nil]
        rw [List.nodup_append]
        refine ⟨eraseActive_keys_nodup _ _ hnodup, List.nodup_singleton _, ?_⟩
        intro a ha hb
        simp only [List.mem_singleton] at hb
        subst hb
        exact eraseActive_keys_not_self _ _ ha
      · apply lookup_append_self
        rw [lookup_none_iff]
        exact eraseActive_any_self _ _
      · intro m hm
        rw [lookup_append_other _ _ _ _ hm]
        exact lookup_erase_other _ _ _ hm

/-- Witness for C8 at a fresh instrument (baseNote 60, no transpose, empty
active map) receiving pitch 72 at velocity 2 (clamped to 1). -/
theorem C8_noteOn_witness :
    (instNoteOn ⟨60, 0, 1, []⟩ 72 2).2 =
      [Cmd.noteOn 2
        ((2 : ℝ) ^ ((((72 - 60 : ℤ) : ℝ) + 0) / 12)) (clampR 2 (1 / 1000) 1)] :=
  (C8_noteOn ⟨60, 0, 1, []⟩ 72 2).1 rfl

end Voice2Synth
